import Mathlib

/-!
Verification of the identifier-resolution engine of the wpm-bot repository.

The Python sources (`wpm_bot.py`, `add_ocr_correction.py`, `review_unknowns.py`)
are shallowly embedded below: strings become `List Char`, Python dicts become
association lists in insertion order, file I/O becomes explicit parameters,
and Python floats become `ℚ`.
-/

namespace WpmBot

/-! ### Basic helpers mirroring Python built-ins -/

/-- Python `s.lower()`, character by character. -/
def lowerS (s : List Char) : List Char := s.map Char.toLower

/-- Python dict lookup `d[k]` / `k in d` on an insertion-ordered association list. -/
def lookupA {β : Type} (xs : List (List Char × β)) (k : List Char) : Option β :=
  (xs.find? (fun kv => decide (kv.1 = k))).map (fun kv => kv.2)

/-- Python dict assignment `d[k] = v`: replace in place if the key exists,
otherwise append at the end (insertion order preserved). -/
def dictInsert {β : Type} (k : List Char) (v : β) : List (List Char × β) → List (List Char × β)
  | [] => [(k, v)]
  | (k', v') :: rest => if k' = k then (k, v) :: rest else (k', v') :: dictInsert k v rest

/-- Python `needle in hay` on strings: contiguous-substring test
(the empty needle is a substring of everything). -/
def isSubstrOf (needle : List Char) : List Char → Bool
  | [] => needle.isPrefixOf []
  | c :: t => needle.isPrefixOf (c :: t) || isSubstrOf needle t

/-! ### `WPMBot.levenshtein_distance` (wpm_bot.py lines 405-423)

The Python code swaps the arguments so that the first is the longer one, then
runs a rolling single-row dynamic program.  `levRow` is the inner `for j, c2 in
enumerate(s2)` loop, `levLoop` the outer `for i, c1 in enumerate(s1)` loop. -/

/-- Inner loop of the DP: one row update.  The running list is the tail of
`previous_row` not yet consumed, `d` is the last entry written to
`current_row`. -/
def levRow (c1 : Char) : List Char → List Nat → Nat → List Nat
  | c2 :: s2, p0 :: p1 :: prest, d =>
    let e := min (min (p1 + 1) (d + 1)) (p0 + (if c1 = c2 then 0 else 1))
    e :: levRow c1 s2 (p1 :: prest) e
  | _, _, _ => []

/-- Outer loop of the DP: `previous_row` is replaced by `current_row` after
each character of `s1`; `current_row` starts with `i + 1`, which equals
`previous_row[0] + 1`. -/
def levLoop (s2 : List Char) : List Char → List Nat → List Nat
  | [], prev => prev
  | c1 :: s1, prev =>
    let h := prev.headD 0 + 1
    levLoop s2 s1 (h :: levRow c1 s2 prev h)

/-- Body of `levenshtein_distance` after the length swap:
`if len(s2) == 0: return len(s1)` then the DP, returning `previous_row[-1]`. -/
def lev_main (s1 s2 : List Char) : Nat :=
  if s2.length = 0 then s1.length
  else (levLoop s2 s1 (List.range (s2.length + 1))).getLastD 0

/-- `WPMBot.levenshtein_distance`: recursive swap so the first argument is the
longer string, then the DP. -/
def levenshtein_distance (s1 s2 : List Char) : Nat :=
  if s1.length < s2.length then lev_main s2 s1 else lev_main s1 s2

/-- Textbook recursive Levenshtein distance (reference specification):
minimum of insertion, deletion and substitution. -/
def levR : List Char → List Char → Nat
  | [], t => t.length
  | a :: s, [] => (a :: s).length
  | a :: s, b :: t =>
    min (min (levR s (b :: t) + 1) (levR (a :: s) t + 1))
      (levR s t + (if a = b then 0 else 1))
termination_by s t => s.length + t.length

/-- Edit distance read off on reversed strings; the DP computes this
prefix-oriented form. -/
def levP (x y : List Char) : Nat := levR x.reverse y.reverse

/-- The tail of a DP row: distances from `x` to every proper extension of the
prefix `y` along the remaining characters. -/
def rowRest (x : List Char) : List Char → List Char → List Nat
  | _, [] => []
  | y, c :: rest => levP x (y ++ [c]) :: rowRest x (y ++ [c]) rest

/-! ### `WPMBot.calculate_similarity` (wpm_bot.py lines 425-435)

Python floats are modelled as rationals. -/

/-- `calculate_similarity`: `0.0` if either string is empty, otherwise
`1 - distance / max(len(s1), len(s2))`. -/
def calculate_similarity (s1 s2 : List Char) : ℚ :=
  if s1 = [] ∨ s2 = [] then 0
  else 1 - (levenshtein_distance s1 s2 : ℚ) / ((max s1.length s2.length : ℕ) : ℚ)

/-! ### Catalog, corrections and bot session state

`CodeBlocks.json` becomes a list of `Block` records; the in-memory lookup
built by `load_code_blocks` is an insertion-ordered association list
`title ↦ (language ↦ code)`.  `detect_language_from_screen` is an external
OCR collaborator, modelled as an opaque field of the session state. -/

/-- One record of the `CodeBlocks.json` snapshot: `title`, optional
`language` (defaulting to `"unknown"`), and the body lines. -/
structure Block where
  title : List Char
  language : Option (List Char)
  blocks : List (List Char)

/-- A catalog: identifier (lowercase) to insertion-ordered language variants. -/
abbrev Catalog : Type := List (List Char × List (List Char × List Char))

/-- The grouping loop of `load_code_blocks`: `lookup[title][language] = code`
with `''.join(block['blocks'])` as the code. -/
def buildLookup (blocks : List Block) : Catalog :=
  blocks.foldl
    (fun lookup b =>
      let title := lowerS b.title
      let language := b.language.getD (String.toList "unknown")
      let code := b.blocks.foldl (fun acc l => acc ++ l) []
      let variants := (lookupA lookup title).getD []
      dictInsert title (dictInsert language code variants) lookup)
    []

/-- How reading `CodeBlocks.json` went: the file may be absent
(`FileNotFoundError`), unparseable (any other exception), or yield records. -/
inductive SnapshotSource : Type where
  | missing : SnapshotSource
  | malformed : SnapshotSource
  | ok : List Block → SnapshotSource

/-- `WPMBot.load_code_blocks` (wpm_bot.py lines 53-93): both the
`FileNotFoundError` handler and the generic exception handler return `{}`. -/
def load_code_blocks : SnapshotSource → Catalog
  | .missing => []
  | .malformed => []
  | .ok blocks => buildLookup blocks

/-- Session state of a `WPMBot` instance: the catalog, the OCR correction
table, the sticky menu language, the opaque screen-detected language, and the
unknown-snippet counter. -/
structure BotState where
  code_blocks : Catalog
  ocr_corrections : List (List Char × List Char)
  selected_language : Option (List Char)
  detected_language : List Char
  unknown_count : Nat

/-! ### `WPMBot.fuzzy_match_function_name` (wpm_bot.py lines 358-403) -/

/-- The ordered prefix list `['def', 'var', 'function', 'func', 'const', 'let']`. -/
def prefixTokens : List (List Char) :=
  [String.toList "def", String.toList "var", String.toList "function",
   String.toList "func", String.toList "const", String.toList "let"]

/-- The prefix-stripping loop: remove the first matching leading token and
break; characters after the token (such as a space) are kept. -/
def clean_ocr_fn : List (List Char) → List Char → List Char
  | [], s => s
  | p :: ps, s => if p.isPrefixOf s then s.drop p.length else clean_ocr_fn ps s

/-- Score of one catalog identifier inside the fuzzy loop: the larger of the
raw and cleaned similarities, raised to at least `0.85` on a substring
relation with the cleaned candidate. -/
def fuzzy_score (ocr_lower clean fn : List Char) : ℚ :=
  let sim := max (calculate_similarity ocr_lower fn) (calculate_similarity clean fn)
  if isSubstrOf fn clean || isSubstrOf clean fn then max sim (85 / 100) else sim

/-- The `for func_name in self.code_blocks.keys()` loop, tracking
`best_match` and `best_score`; an identifier wins only with a score strictly
above both the running best and the `0.6` threshold. -/
def fuzzy_loop (ocr_lower clean : List Char) :
    List (List Char) → Option (List Char) → ℚ → Option (List Char)
  | [], best, _ => best
  | fn :: fns, best, best_score =>
    let s := fuzzy_score ocr_lower clean fn
    if best_score < s ∧ (6 : ℚ) / 10 < s then fuzzy_loop ocr_lower clean fns (some fn) s
    else fuzzy_loop ocr_lower clean fns best best_score

/-- `fuzzy_match_function_name`: empty input short-circuits; a correction-table
hit returns immediately (without checking the catalog); otherwise the fuzzy
loop runs and a falsy (empty) best match becomes `None`. -/
def fuzzy_match_function_name (bot : BotState) (ocr_name : List Char) :
    Option (List Char) :=
  if ocr_name = [] then none
  else
    let ocr_lower := lowerS ocr_name
    match lookupA bot.ocr_corrections ocr_lower with
    | some corrected => some corrected
    | none =>
      let clean := clean_ocr_fn prefixTokens ocr_lower
      match fuzzy_loop ocr_lower clean (bot.code_blocks.map (fun kv => kv.1)) none 0 with
      | some best => if best = [] then none else some best
      | none => none

/-! ### `WPMBot.get_code_from_database` (wpm_bot.py lines 437-505) -/

/-- Python `if o and o in variants: return variants[o]` as an optional lookup:
`some` only when `o` is truthy (present and non-empty) and a variant exists. -/
def truthyLookup (o : Option (List Char)) (variants : List (List Char × List Char)) :
    Option (List Char) :=
  match o with
  | none => none
  | some s => if s = [] then none else lookupA variants s

/-- Variant selection in the exact-match branch: selected language, then
language hint, then screen-detected language, then first variant. -/
def select_variant_exact (bot : BotState) (language_hint : Option (List Char))
    (variants : List (List Char × List Char)) : Option (List Char) :=
  match truthyLookup bot.selected_language variants with
  | some code => some code
  | none =>
    match truthyLookup language_hint variants with
    | some code => some code
    | none =>
      match lookupA variants bot.detected_language with
      | some code => some code
      | none => variants.head?.map (fun kv => kv.2)

/-- Variant selection in the corrected/fuzzy branch: selected language, then
first variant (no hint, no screen detection). -/
def select_variant_fuzzy (bot : BotState)
    (variants : List (List Char × List Char)) : Option (List Char) :=
  match truthyLookup bot.selected_language variants with
  | some code => some code
  | none => variants.head?.map (fun kv => kv.2)

/-- `save_unknown_function_screenshot` (wpm_bot.py lines 507-544):
`self.unknown_count += 1`; the new count is the record's sequence number. -/
def save_unknown_function_screenshot (bot : BotState) : BotState :=
  { bot with unknown_count := bot.unknown_count + 1 }

/-- The `for key in self.code_blocks.keys()` substring fallback, then the
unknown recorder on failure. -/
def substring_or_fail (bot : BotState) (func_name_lower : List Char) :
    Option (List Char) × BotState :=
  match bot.code_blocks.find?
      (fun kv => isSubstrOf func_name_lower kv.1 || isSubstrOf kv.1 func_name_lower) with
  | some kv => (kv.2.head?.map (fun p => p.2), bot)
  | none => (none, save_unknown_function_screenshot bot)

/-- `get_code_from_database`: exact match, then correction/fuzzy match, then
substring fallback, else record the unknown.  Returns the code (if any) and
the updated session state. -/
def get_code_from_database (bot : BotState) (function_name : List Char)
    (language_hint : Option (List Char)) : Option (List Char) × BotState :=
  if function_name = [] then (none, bot)
  else
    let func_name_lower := lowerS function_name
    match lookupA bot.code_blocks func_name_lower with
    | some variants => (select_variant_exact bot language_hint variants, bot)
    | none =>
      match fuzzy_match_function_name bot function_name with
      | some corrected =>
        if corrected ≠ [] then
          match lookupA bot.code_blocks corrected with
          | some variants => (select_variant_fuzzy bot variants, bot)
          | none => substring_or_fail bot func_name_lower
        else substring_or_fail bot func_name_lower
      | none => substring_or_fail bot func_name_lower

/-! ### `add_correction` (add_ocr_correction.py lines 11-31) -/

/-- Contents of `ocr_corrections.json`. -/
structure CorrData where
  comment : List Char
  corrections : List (List Char × List Char)

/-- The fresh document created when `ocr_corrections.json` is absent. -/
def defaultCorrData : CorrData :=
  { comment := String.toList "Map common OCR errors to correct function names",
    corrections := [] }

/-- `add_correction(ocr_error, correct_name)`: load (or default), lowercase
both arguments, upsert, and return the document that is written back.  No
validation of any kind is performed on the arguments. -/
def add_correction (fileData : Option CorrData) (ocr_error correct_name : List Char) :
    CorrData :=
  let data := fileData.getD defaultCorrData
  { data with
    corrections := dictInsert (lowerS ocr_error) (lowerS correct_name) data.corrections }

/-- Number of entries of the table carrying a given key. -/
def countKey (k : List Char) (xs : List (List Char × List Char)) : Nat :=
  (xs.filter (fun kv => decide (kv.1 = k))).length

/-! ### `suggest_corrections` scoring (review_unknowns.py lines 100-134) -/

/-- Score of one identifier in the maintenance tool: same shape as the session
resolver but with the lower `0.8` substring floor. -/
def rv_score (ocr_name clean fn : List Char) : ℚ :=
  let sim := max (calculate_similarity ocr_name fn) (calculate_similarity clean fn)
  if isSubstrOf fn clean || isSubstrOf clean fn then max sim (8 / 10) else sim

/-- The match list built for one unknown record: every identifier scoring
strictly above `0.5`, then `matches.sort(key=..., reverse=True)` (a stable
descending sort on the score). -/
def suggestion_matches (available : List (List Char)) (ocr_name : List Char) :
    List (List Char × ℚ) :=
  let clean := clean_ocr_fn prefixTokens ocr_name
  let found := available.filterMap
    (fun fn =>
      let s := rv_score ocr_name clean fn
      if (1 : ℚ) / 2 < s then some (fn, s) else none)
  found.mergeSort (fun a b => decide (b.2 ≤ a.2))

/-! ### Concrete session states used by counterexamples and witnesses -/

/-- Catalog entry with a python and a javascript variant, for C1. -/
def c1_variants : List (List Char × List Char) :=
  [(String.toList "python", String.toList "PY"),
   (String.toList "javascript", String.toList "JS")]

/-- Session for the C1 counterexample: resolution goes through the correction
table, no sticky language, a javascript hint. -/
def c1_bot : BotState :=
  { code_blocks := [(String.toList "twosum", c1_variants)],
    ocr_corrections := [(String.toList "foo", String.toList "twosum")],
    selected_language := none,
    detected_language := String.toList "javascript",
    unknown_count := 0 }

/-- Session for the C1 witness: sticky javascript, exact-match resolution. -/
def c1w_bot : BotState :=
  { code_blocks := [(String.toList "twosum", c1_variants)],
    ocr_corrections := [],
    selected_language := some (String.toList "javascript"),
    detected_language := String.toList "python",
    unknown_count := 0 }

/-- Session for C2: the correction table maps "twsum" to a name that is not a
catalog key. -/
def c2_bot : BotState :=
  { code_blocks := [(String.toList "twosum", [(String.toList "python", String.toList "PY")])],
    ocr_corrections := [(String.toList "twsum", String.toList "nonexistent")],
    selected_language := none,
    detected_language := String.toList "javascript",
    unknown_count := 0 }

/-- Same session as `c2_bot` but with an empty correction table. -/
def c2_bot_nocorr : BotState :=
  { c2_bot with ocr_corrections := [] }

/-- Session for C5: catalog containing exactly "searchinsert". -/
def c5_bot : BotState :=
  { code_blocks :=
      [(String.toList "searchinsert", [(String.toList "python", String.toList "BODY")])],
    ocr_corrections := [],
    selected_language := none,
    detected_language := String.toList "javascript",
    unknown_count := 0 }

/-- Session for C7: one-identifier catalog that matches nothing of "qqqqqqqq". -/
def c7_bot : BotState :=
  { code_blocks := [(String.toList "twosum", [(String.toList "python", String.toList "PY")])],
    ocr_corrections := [],
    selected_language := none,
    detected_language := String.toList "javascript",
    unknown_count := 3 }

/-- Session for the C10 counterexample: the catalog's second identifier is
"def" itself. -/
def c10_bot : BotState :=
  { code_blocks :=
      [(String.toList "twosum", [(String.toList "python", String.toList "PY")]),
       (String.toList "def", [(String.toList "python", String.toList "PD")])],
    ocr_corrections := [],
    selected_language := none,
    detected_language := String.toList "javascript",
    unknown_count := 0 }

/-- Session for the C10 witness: a one-identifier catalog. -/
def c10w_bot : BotState :=
  { code_blocks := [(String.toList "twosum", [(String.toList "python", String.toList "PY")])],
    ocr_corrections := [],
    selected_language := none,
    detected_language := String.toList "javascript",
    unknown_count := 0 }

/-! ### Properties of the reference edit distance -/

theorem levR_nil_left (t : List Char) : levR [] t = t.length := by
  simp [levR]

theorem levR_nil_right (s : List Char) : levR s [] = s.length := by
  cases s <;> simp [levR]

theorem levR_cons_cons (a b : Char) (s t : List Char) :
    levR (a :: s) (b :: t) =
      min (min (levR s (b :: t) + 1) (levR (a :: s) t + 1))
        (levR s t + (if a = b then 0 else 1)) := by
  rw [levR]

theorem levR_comm : ∀ s t : List Char, levR s t = levR t s
  | [], t => by rw [levR_nil_left, levR_nil_right]
  | a :: s, [] => by rw [levR_nil_left, levR_nil_right]
  | a :: s, b :: t => by
    have h1 := levR_comm s (b :: t)
    have h2 := levR_comm (a :: s) t
    have h3 := levR_comm s t
    rw [levR_cons_cons, levR_cons_cons, h1, h2, h3]
    have hc : (if a = b then 0 else 1) = (if b = a then 0 else 1) := by
      by_cases h : a = b
      · simp [h]
      · rw [if_neg h, if_neg (fun hh => h hh.symm)]
    rw [hc, Nat.min_comm (levR (b :: t) s + 1) (levR t (a :: s) + 1)]
termination_by s t => s.length + t.length

theorem levR_self : ∀ s : List Char, levR s s = 0
  | [] => by simp [levR]
  | a :: s => by
    rw [levR_cons_cons]
    simp [levR_self s]

theorem levR_le_max : ∀ s t : List Char, levR s t ≤ max s.length t.length
  | [], t => by simp [levR_nil_left]
  | a :: s, [] => by simp [levR_nil_right]
  | a :: s, b :: t => by
    have h3 := levR_le_max s t
    rw [levR_cons_cons]
    calc min (min (levR s (b :: t) + 1) (levR (a :: s) t + 1))
          (levR s t + (if a = b then 0 else 1))
        ≤ levR s t + (if a = b then 0 else 1) := Nat.min_le_right _ _
      _ ≤ max s.length t.length + 1 := by split <;> omega
      _ ≤ max (a :: s).length (b :: t).length := by
          simp [List.length_cons, Nat.succ_max_succ]
termination_by s t => s.length + t.length

theorem levP_comm (x y : List Char) : levP x y = levP y x := levR_comm _ _

theorem levP_self (x : List Char) : levP x x = 0 := levR_self _

theorem levP_le_max (x y : List Char) : levP x y ≤ max x.length y.length := by
  have := levR_le_max x.reverse y.reverse
  simpa [levP] using this

theorem levP_nil_right (x : List Char) : levP x [] = x.length := by
  simp [levP, levR_nil_right]

theorem levP_nil_left (y : List Char) : levP [] y = y.length := by
  simp [levP, levR_nil_left]

theorem levP_append (x y : List Char) (a b : Char) :
    levP (x ++ [a]) (y ++ [b]) =
      min (min (levP x (y ++ [b]) + 1) (levP (x ++ [a]) y + 1))
        (levP x y + (if a = b then 0 else 1)) := by
  simp only [levP, List.reverse_append, List.reverse_cons, List.reverse_nil,
    List.nil_append, List.singleton_append]
  rw [levR_cons_cons]

/-! ### The DP computes the reference distance -/

theorem levRow_rowRest (c1 : Char) :
    ∀ (s x y : List Char),
      levRow c1 s (levP x y :: rowRest x y s) (levP (x ++ [c1]) y) =
        rowRest (x ++ [c1]) y s
  | [], x, y => rfl
  | c2 :: rest, x, y => by
    have ih := levRow_rowRest c1 rest x (y ++ [c2])
    simp only [rowRest, levRow]
    rw [← levP_append x y c1 c2]
    rw [ih]

theorem levLoop_rowFor (s2 : List Char) :
    ∀ (s1 x : List Char),
      levLoop s2 s1 (levP x [] :: rowRest x [] s2) =
        levP (x ++ s1) [] :: rowRest (x ++ s1) [] s2
  | [], x => by simp [levLoop]
  | c1 :: s1, x => by
    have ih := levLoop_rowFor s2 s1 (x ++ [c1])
    have hh : levP x [] + 1 = levP (x ++ [c1]) [] := by
      simp [levP_nil_right]
    simp only [levLoop, List.headD_cons]
    rw [hh, levRow_rowRest c1 s2 x [], ih]
    simp only [List.append_assoc, List.singleton_append]

theorem rowRest_nil : ∀ (s y : List Char),
    rowRest [] y s = List.range' (y.length + 1) s.length
  | [], y => rfl
  | c :: rest, y => by
    have ih := rowRest_nil rest (y ++ [c])
    simp only [rowRest, levP_nil_left, List.length_append, List.length_cons,
      List.length_nil, List.length_range'] at ih ⊢
    rw [ih, List.range'_succ]

theorem getLastD_rowFor : ∀ (s x y : List Char) (d : Nat),
    (levP x y :: rowRest x y s).getLastD d = levP x (y ++ s)
  | [], x, y, d => by simp [rowRest]
  | c :: rest, x, y, d => by
    have ih := getLastD_rowFor rest x (y ++ [c]) (levP x y)
    simp only [rowRest, List.getLastD_cons] at ih ⊢
    rw [ih]
    simp

theorem lev_main_eq_levP (s1 s2 : List Char) : lev_main s1 s2 = levP s1 s2 := by
  unfold lev_main
  by_cases h : s2.length = 0
  · rw [if_pos h]
    rw [List.length_eq_zero] at h
    subst h
    rw [levP_nil_right]
  · rw [if_neg h]
    have hinit : List.range (s2.length + 1) = levP [] [] :: rowRest [] [] s2 := by
      rw [rowRest_nil s2 []]
      simp only [levP_nil_left, List.length_nil]
      rw [List.range_eq_range', List.range'_succ]
    rw [hinit, levLoop_rowFor s2 s1 [], getLastD_rowFor]
    simp

theorem levenshtein_eq_levP (s1 s2 : List Char) :
    levenshtein_distance s1 s2 = levP s1 s2 := by
  unfold levenshtein_distance
  split
  · rw [lev_main_eq_levP, levP_comm]
  · rw [lev_main_eq_levP]

theorem levenshtein_self (s : List Char) : levenshtein_distance s s = 0 := by
  rw [levenshtein_eq_levP, levP_self]

theorem levenshtein_le_max (s t : List Char) :
    levenshtein_distance s t ≤ max s.length t.length := by
  rw [levenshtein_eq_levP]
  exact levP_le_max s t

theorem levenshtein_comm (s t : List Char) :
    levenshtein_distance s t = levenshtein_distance t s := by
  rw [levenshtein_eq_levP, levenshtein_eq_levP, levP_comm]

/-! ### Properties of the similarity scorer -/

theorem calculate_similarity_nonneg (s1 s2 : List Char) :
    0 ≤ calculate_similarity s1 s2 := by
  unfold calculate_similarity
  split
  · exact le_refl 0
  · rename_i h
    push_neg at h
    obtain ⟨h1, h2⟩ := h
    have hlen : 0 < s1.length := List.length_pos.mpr h1
    have hm : (0 : ℚ) < ((max s1.length s2.length : ℕ) : ℚ) := by
      have : 0 < max s1.length s2.length := lt_of_lt_of_le hlen (le_max_left _ _)
      exact_mod_cast this
    have hd : (levenshtein_distance s1 s2 : ℚ) ≤ ((max s1.length s2.length : ℕ) : ℚ) := by
      exact_mod_cast levenshtein_le_max s1 s2
    have := (div_le_one hm).mpr hd
    linarith

theorem calculate_similarity_le_one (s1 s2 : List Char) :
    calculate_similarity s1 s2 ≤ 1 := by
  unfold calculate_similarity
  split
  · norm_num
  · have hd : (0 : ℚ) ≤ (levenshtein_distance s1 s2 : ℚ) := by positivity
    have hm : (0 : ℚ) ≤ ((max s1.length s2.length : ℕ) : ℚ) := by positivity
    have := div_nonneg hd hm
    linarith

theorem calculate_similarity_self (s : List Char) (h : s ≠ []) :
    calculate_similarity s s = 1 := by
  unfold calculate_similarity
  rw [if_neg (by simp [h])]
  rw [levenshtein_self]
  simp

theorem calculate_similarity_nil_left (s : List Char) :
    calculate_similarity [] s = 0 := by
  simp [calculate_similarity]

/-! ### Properties of the dict operations -/

theorem lookupA_cons {β : Type} (k1 : List Char) (v1 : β) (rest : List (List Char × β))
    (k : List Char) :
    lookupA ((k1, v1) :: rest) k = if k1 = k then some v1 else lookupA rest k := by
  by_cases h : k1 = k
  · simp [lookupA, List.find?_cons_of_pos, h]
  · simp [lookupA, List.find?_cons_of_neg, h]

theorem lookupA_dictInsert_self {β : Type} (k : List Char) (v : β)
    (l : List (List Char × β)) : lookupA (dictInsert k v l) k = some v := by
  induction l with
  | nil => simp [dictInsert, lookupA_cons]
  | cons kv rest ih =>
    obtain ⟨k1, v1⟩ := kv
    by_cases h : k1 = k
    · simp [dictInsert, h, lookupA_cons]
    · simp [dictInsert, h, lookupA_cons, ih]

theorem lookupA_dictInsert_ne {β : Type} (k k' : List Char) (v : β)
    (l : List (List Char × β)) (h : k' ≠ k) :
    lookupA (dictInsert k v l) k' = lookupA l k' := by
  have hne : ¬k = k' := fun hh => h hh.symm
  induction l with
  | nil => simp [dictInsert, lookupA_cons, lookupA, hne]
  | cons kv rest ih =>
    obtain ⟨k1, v1⟩ := kv
    by_cases hk : k1 = k
    · simp [dictInsert, hk, lookupA_cons, hne]
    · by_cases hk' : k1 = k'
      · simp [dictInsert, hk, hk', lookupA_cons, h]
      · simp [dictInsert, hk, hk', lookupA_cons, ih]

theorem countKey_cons (k1 v1 : List Char) (rest : List (List Char × List Char))
    (k : List Char) :
    countKey k ((k1, v1) :: rest) = (if k1 = k then 1 else 0) + countKey k rest := by
  by_cases h : k1 = k
  · simp [countKey, List.filter_cons, h]
    omega
  · simp [countKey, List.filter_cons, h]

theorem countKey_dictInsert (k v : List Char) (l : List (List Char × List Char)) :
    countKey k (dictInsert k v l) = max 1 (countKey k l) := by
  induction l with
  | nil => simp [dictInsert, countKey]
  | cons kv rest ih =>
    obtain ⟨k1, v1⟩ := kv
    by_cases h : k1 = k
    · subst h
      rw [show dictInsert k1 v ((k1, v1) :: rest) = (k1, v) :: rest from by
        simp [dictInsert]]
      rw [countKey_cons, countKey_cons, if_pos rfl]
      omega
    · simp only [dictInsert, if_neg h]
      rw [countKey_cons, countKey_cons, if_neg h, ih]
      omega

theorem countKey_eq_zero (k : List Char) (l : List (List Char × List Char))
    (h : k ∉ l.map Prod.fst) : countKey k l = 0 := by
  induction l with
  | nil => rfl
  | cons kv rest ih =>
    obtain ⟨k1, v1⟩ := kv
    simp only [List.map_cons, List.mem_cons] at h
    push_neg at h
    rw [countKey_cons, if_neg (fun hh : k1 = k => h.1 hh.symm)]
    simpa using ih h.2

theorem countKey_le_one_of_nodup (k : List Char) (l : List (List Char × List Char))
    (h : (l.map Prod.fst).Nodup) : countKey k l ≤ 1 := by
  induction l with
  | nil => simp [countKey]
  | cons kv rest ih =>
    obtain ⟨k1, v1⟩ := kv
    simp only [List.map_cons, List.nodup_cons] at h
    obtain ⟨hnotin, hnd⟩ := h
    rw [countKey_cons]
    by_cases hk : k1 = k
    · rw [if_pos hk]
      have := countKey_eq_zero k rest (hk ▸ hnotin)
      omega
    · rw [if_neg hk]
      simpa using ih hnd

/-! ### Properties of the fuzzy loop -/

theorem isSubstrOf_nil_left (hay : List Char) : isSubstrOf [] hay = true := by
  cases hay <;> simp [isSubstrOf]

theorem fuzzy_score_boost (ocr fn : List Char) :
    (85 : ℚ) / 100 ≤ fuzzy_score ocr [] fn := by
  simp only [fuzzy_score, isSubstrOf_nil_left, Bool.or_true, if_pos]
  exact le_max_right _ _

theorem fuzzy_score_nil_clean (ocr fn : List Char)
    (h : calculate_similarity ocr fn ≤ 85 / 100) :
    fuzzy_score ocr [] fn = 85 / 100 := by
  simp only [fuzzy_score, isSubstrOf_nil_left, Bool.or_true, if_pos,
    calculate_similarity_nil_left]
  rw [max_eq_left (calculate_similarity_nonneg ocr fn), max_eq_right h]

theorem fuzzy_loop_isSome (ocr clean : List Char) :
    ∀ (fs : List (List Char)) (b : Option (List Char)) (s : ℚ),
      b.isSome → (fuzzy_loop ocr clean fs b s).isSome
  | [], _, _, h => h
  | fn :: fns, b, s, h => by
    simp only [fuzzy_loop]
    split
    · exact fuzzy_loop_isSome ocr clean fns (some fn) _ rfl
    · exact fuzzy_loop_isSome ocr clean fns b s h

theorem fuzzy_loop_mem (ocr clean : List Char) :
    ∀ (fs : List (List Char)) (b : Option (List Char)) (s : ℚ) (f : List Char),
      fuzzy_loop ocr clean fs b s = some f → b = some f ∨ f ∈ fs
  | [], _, _, _, h => Or.inl h
  | fn :: fns, b, s, f, h => by
    simp only [fuzzy_loop] at h
    split at h
    · rcases fuzzy_loop_mem ocr clean fns (some fn) _ f h with h' | h'
      · exact Or.inr (by simp_all)
      · exact Or.inr (List.mem_cons_of_mem _ h')
    · rcases fuzzy_loop_mem ocr clean fns b s f h with h' | h'
      · exact Or.inl h'
      · exact Or.inr (List.mem_cons_of_mem _ h')

theorem fuzzy_loop_stay (ocr clean : List Char) :
    ∀ (fs : List (List Char)) (f0 : List Char) (s0 : ℚ),
      (∀ fn ∈ fs, fuzzy_score ocr clean fn ≤ s0) →
      fuzzy_loop ocr clean fs (some f0) s0 = some f0
  | [], _, _, _ => rfl
  | fn :: fns, f0, s0, h => by
    simp only [fuzzy_loop]
    rw [if_neg]
    · exact fuzzy_loop_stay ocr clean fns f0 s0
        (fun g hg => h g (List.mem_cons_of_mem _ hg))
    · intro hcon
      exact absurd hcon.1 (not_lt.mpr (h fn (List.mem_cons_self _ _)))

theorem clean_ocr_fn_token (t : List Char) (ht : t ∈ prefixTokens) :
    clean_ocr_fn prefixTokens t = [] := by
  fin_cases ht <;> decide

/-! ### The claims -/

/-- C4: `calculate_similarity` returns `0` when either string is empty (in
particular against the empty string), otherwise equals
`1 - distance / max(len a, len b)` and lies in `[0, 1]`; on equal non-empty
strings it is exactly `1`. -/
theorem C4_similarity_spec :
    (∀ a b : List Char, (a = [] ∨ b = []) → calculate_similarity a b = 0) ∧
    (∀ a b : List Char, a ≠ [] → b ≠ [] →
      calculate_similarity a b =
        1 - (levenshtein_distance a b : ℚ) / ((max a.length b.length : ℕ) : ℚ) ∧
      0 ≤ calculate_similarity a b ∧ calculate_similarity a b ≤ 1) ∧
    (∀ a : List Char, a ≠ [] → calculate_similarity a a = 1) ∧
    (∀ a : List Char, calculate_similarity a [] = 0) := by
  refine ⟨?_, ?_, ?_, ?_⟩
  · intro a b h
    simp [calculate_similarity, h]
  · intro a b ha hb
    refine ⟨?_, calculate_similarity_nonneg a b, calculate_similarity_le_one a b⟩
    simp [calculate_similarity, ha, hb]
  · exact fun a ha => calculate_similarity_self a ha
  · intro a
    simp [calculate_similarity]

/-- C4 witness: the theorem applied to the concrete strings "ab" and "". -/
theorem C4_similarity_spec_witness :
    calculate_similarity (String.toList "ab") (String.toList "ab") = 1 ∧
    calculate_similarity (String.toList "ab") [] = 0 :=
  ⟨C4_similarity_spec.2.2.1 (String.toList "ab") (by decide),
   C4_similarity_spec.2.2.2 (String.toList "ab")⟩

/-- C6: the edit distance computed by `levenshtein_distance` is symmetric. -/
theorem C6_distance_symmetric (a b : List Char) :
    levenshtein_distance a b = levenshtein_distance b a :=
  levenshtein_comm a b

/-- C9: adding the same correction twice leaves exactly one entry for the
(lowercased) key, provided the initial table is a genuine mapping (its keys
are distinct, as any table loaded from a JSON object is). -/
theorem C9_add_correction_idempotent (x y : List Char) (hx : x ≠ []) (hy : y ≠ [])
    (d : Option CorrData)
    (hnd : ((d.getD defaultCorrData).corrections.map Prod.fst).Nodup) :
    countKey (lowerS x)
      ((add_correction (some (add_correction d x y)) x y).corrections) = 1 := by
  simp only [add_correction, Option.getD_some]
  rw [countKey_dictInsert, countKey_dictInsert]
  have hle := countKey_le_one_of_nodup (lowerS x) _ hnd
  omega

/-- C9 witness: the theorem applied to "a" and "b" over the default (empty)
correction table. -/
theorem C9_add_correction_idempotent_witness :
    countKey (lowerS (String.toList "a"))
      ((add_correction
          (some (add_correction none (String.toList "a") (String.toList "b")))
          (String.toList "a") (String.toList "b")).corrections) = 1 :=
  C9_add_correction_idempotent (String.toList "a") (String.toList "b")
    (by decide) (by decide) none (by decide)

/-- C8 counterexample: `add_correction` with an empty `ocr_text` does not fail
with any validation error; it happily inserts the empty key into the table. -/
theorem C8_counterexample :
    (add_correction none [] (String.toList "x")).corrections =
      [([], String.toList "x")] := by
  decide

/-- C8 amended: `add_correction` performs no emptiness validation; for any
arguments (empty or not) it upserts the lowercased pair — the new key maps to
the new value and every other key is untouched. -/
theorem C8_amended (d : Option CorrData) (x y : List Char) :
    lookupA (add_correction d x y).corrections (lowerS x) = some (lowerS y) ∧
    ∀ k, k ≠ lowerS x →
      lookupA (add_correction d x y).corrections k =
        lookupA (d.getD defaultCorrData).corrections k := by
  constructor
  · exact lookupA_dictInsert_self _ _ _
  · intro k hk
    exact lookupA_dictInsert_ne _ k _ _ hk

/-- C8 witness: the amended theorem applied to "A"/"B" over the default table,
with the untouched key "z". -/
theorem C8_amended_witness :
    lookupA (add_correction none (String.toList "A") (String.toList "B")).corrections
      (lowerS (String.toList "A")) = some (lowerS (String.toList "B")) ∧
    lookupA (add_correction none (String.toList "A") (String.toList "B")).corrections
      (String.toList "z") = none := by
  constructor
  · exact (C8_amended none (String.toList "A") (String.toList "B")).1
  · have h := (C8_amended none (String.toList "A") (String.toList "B")).2
      (String.toList "z") (by decide)
    rw [h]
    decide

/-- C3 counterexample: a missing or malformed `CodeBlocks.json` does not abort
construction; `load_code_blocks` returns the empty catalog in both cases. -/
theorem C3_counterexample :
    load_code_blocks SnapshotSource.missing = [] ∧
    load_code_blocks SnapshotSource.malformed = [] :=
  ⟨rfl, rfl⟩

/-- C3 amended: catalog load is non-fatal: on a missing or malformed snapshot
it returns an empty catalog, construction proceeds, and every later resolution
over that empty catalog merely fails (returns no code). -/
theorem C3_amended :
    (load_code_blocks SnapshotSource.missing = [] ∧
     load_code_blocks SnapshotSource.malformed = []) ∧
    ∀ (corr : List (List Char × List Char)) (sel : Option (List Char))
      (det : List Char) (n : Nat) (fn : List Char) (hint : Option (List Char)),
      (get_code_from_database
        { code_blocks := load_code_blocks SnapshotSource.missing,
          ocr_corrections := corr, selected_language := sel,
          detected_language := det, unknown_count := n } fn hint).1 = none := by
  refine ⟨⟨rfl, rfl⟩, ?_⟩
  intro corr sel det n fn hint
  by_cases hfn : fn = []
  · simp [get_code_from_database, hfn]
  · simp only [get_code_from_database, if_neg hfn, load_code_blocks]
    have hemp : ∀ k : List Char, lookupA ([] : Catalog) k = none := fun _ => rfl
    rw [hemp]
    rcases hf : fuzzy_match_function_name
        { code_blocks := ([] : Catalog), ocr_corrections := corr,
          selected_language := sel, detected_language := det,
          unknown_count := n } fn with _ | c
    · simp [substring_or_fail, List.find?]
    · by_cases hc : c = []
      · simp [hc, substring_or_fail, List.find?]
      · simp [hc, hemp, substring_or_fail, List.find?]

set_option maxRecDepth 100000 in
/-- C5 counterexample: stripping the leading token from "def searchinsert"
keeps the following space: the cleaned candidate is " searchinsert", not
"searchinsert", and its similarity to "searchinsert" is 12/13, not 1. -/
theorem C5_counterexample :
    clean_ocr_fn prefixTokens (String.toList "def searchinsert") =
      String.toList " searchinsert" ∧
    String.toList " searchinsert" ≠ String.toList "searchinsert" ∧
    calculate_similarity (String.toList " searchinsert") (String.toList "searchinsert") =
      12 / 13 ∧
    (12 : ℚ) / 13 ≠ 1 := by
  refine ⟨by decide, by decide, by with_unfolding_all decide, by with_unfolding_all decide⟩

set_option maxRecDepth 100000 in
/-- C5 amended: the cleaned candidate is " searchinsert" with similarity
12/13 to "searchinsert" — still above the 0.6 threshold (and the substring
boost applies), so the fuzzy stage resolves "def searchinsert" to
"searchinsert" and resolution returns its body even though the raw candidate
is not an exact catalog key. -/
theorem C5_amended :
    lookupA c5_bot.code_blocks (lowerS (String.toList "def searchinsert")) = none ∧
    fuzzy_match_function_name c5_bot (String.toList "def searchinsert") =
      some (String.toList "searchinsert") ∧
    (get_code_from_database c5_bot (String.toList "def searchinsert") none).1 =
      some (String.toList "BODY") := by
  refine ⟨by decide, by with_unfolding_all decide, by with_unfolding_all decide⟩

/-- C1 counterexample: in a correction-lookup resolution with no sticky
language, a language hint that is present among the variants is ignored: the
first (python) variant is returned instead of the hinted javascript one. -/
theorem C1_counterexample :
    (get_code_from_database c1_bot (String.toList "foo")
        (some (String.toList "javascript"))).1 = some (String.toList "PY") ∧
    String.toList "PY" ≠ String.toList "JS" ∧
    lookupA c1_variants (String.toList "javascript") = some (String.toList "JS") := by
  refine ⟨by decide, by decide, by decide⟩

/-- C1 amended: variant selection is per branch.  In the exact-match branch
the full cascade applies: the sticky selected language if truthy and present,
else a truthy language hint present among the variants, else the
screen-detected language if present, else the first variant.  In the
correction/fuzzy branch only the sticky selected language is consulted, else
the first variant is returned — the hint and screen detection are ignored.
Substring-fallback resolutions always return the matched entry's first
variant, whatever the session languages are. -/
theorem C1_amended (bot : BotState) (fn : List Char) (hint : Option (List Char))
    (hfn : fn ≠ []) :
    (∀ variants, lookupA bot.code_blocks (lowerS fn) = some variants →
      (∀ sl code, bot.selected_language = some sl → sl ≠ [] →
        lookupA variants sl = some code →
        (get_code_from_database bot fn hint).1 = some code) ∧
      (truthyLookup bot.selected_language variants = none →
        ∀ hl code, hint = some hl → hl ≠ [] → lookupA variants hl = some code →
          (get_code_from_database bot fn hint).1 = some code) ∧
      (truthyLookup bot.selected_language variants = none →
        truthyLookup hint variants = none →
        ∀ code, lookupA variants bot.detected_language = some code →
          (get_code_from_database bot fn hint).1 = some code) ∧
      (truthyLookup bot.selected_language variants = none →
        truthyLookup hint variants = none →
        lookupA variants bot.detected_language = none →
        (get_code_from_database bot fn hint).1 =
          variants.head?.map (fun kv => kv.2))) ∧
    (∀ c variants, lookupA bot.code_blocks (lowerS fn) = none →
      fuzzy_match_function_name bot fn = some c → c ≠ [] →
      lookupA bot.code_blocks c = some variants →
      (∀ sl code, bot.selected_language = some sl → sl ≠ [] →
        lookupA variants sl = some code →
        (get_code_from_database bot fn hint).1 = some code) ∧
      (truthyLookup bot.selected_language variants = none →
        (get_code_from_database bot fn hint).1 =
          variants.head?.map (fun kv => kv.2))) ∧
    (∀ kv, lookupA bot.code_blocks (lowerS fn) = none →
      (∀ c, fuzzy_match_function_name bot fn = some c →
        c = [] ∨ lookupA bot.code_blocks c = none) →
      bot.code_blocks.find?
        (fun e => isSubstrOf (lowerS fn) e.1 || isSubstrOf e.1 (lowerS fn)) = some kv →
      (get_code_from_database bot fn hint).1 = kv.2.head?.map (fun p => p.2)) := by
  refine ⟨?_, ?_, ?_⟩
  · intro variants hcat
    have hsel : (get_code_from_database bot fn hint).1 =
        select_variant_exact bot hint variants := by
      simp only [get_code_from_database, if_neg hfn, hcat]
    refine ⟨?_, ?_, ?_, ?_⟩
    · intro sl code hsl hne hv
      rw [hsel]
      simp [select_variant_exact, truthyLookup, hsl, hne, hv]
    · intro hts hl code hhl hne hv
      rw [hsel]
      simp only [select_variant_exact, hts]
      simp [truthyLookup, hhl, hne, hv]
    · intro hts hth code hdet
      rw [hsel]
      simp only [select_variant_exact, hts, hth, hdet]
    · intro hts hth hdet
      rw [hsel]
      simp only [select_variant_exact, hts, hth, hdet]
  · intro c variants hmiss hfz hc hcat
    have hsel : (get_code_from_database bot fn hint).1 =
        select_variant_fuzzy bot variants := by
      simp only [get_code_from_database, if_neg hfn, hmiss, hfz]
      simp [hc, hcat]
    refine ⟨?_, ?_⟩
    · intro sl code hsl hne hv
      rw [hsel]
      simp [select_variant_fuzzy, truthyLookup, hsl, hne, hv]
    · intro hts
      rw [hsel]
      simp only [select_variant_fuzzy, hts]
  · intro kv hmiss h3 hfind
    have hsub : get_code_from_database bot fn hint =
        substring_or_fail bot (lowerS fn) := by
      rcases hf : fuzzy_match_function_name bot fn with _ | c
      · simp only [get_code_from_database, if_neg hfn, hmiss, hf]
      · rcases h3 c hf with hc | hc
        · simp only [get_code_from_database, if_neg hfn, hmiss, hf, hc]
          simp
        · simp only [get_code_from_database, if_neg hfn, hmiss, hf]
          by_cases hce : c = []
          · simp [hce]
          · simp [hce, hc]
    rw [hsub]
    simp [substring_or_fail, hfind]

/-- C1 witness: the spec's own example — variants for python and javascript,
sticky selected language javascript, hint python — resolves to the javascript
body, via the amended theorem's exact-match part. -/
theorem C1_amended_witness :
    (get_code_from_database c1w_bot (String.toList "twosum")
        (some (String.toList "python"))).1 = some (String.toList "JS") :=
  (((C1_amended c1w_bot (String.toList "twosum") (some (String.toList "python"))
      (by decide)).1 c1_variants (by decide)).1
    (String.toList "javascript") (String.toList "JS") rfl (by decide) (by decide))

set_option maxRecDepth 100000 in
/-- C2 counterexample: with the correction table mapping "twsum" to a name
that is not a catalog key, resolution fails outright — it does not fall
through to fuzzy scoring, which (as the correction-free run shows) would have
resolved "twsum" to "twosum". -/
theorem C2_counterexample :
    (get_code_from_database c2_bot (String.toList "twsum") none).1 = none ∧
    (get_code_from_database c2_bot_nocorr (String.toList "twsum") none).1 =
      some (String.toList "PY") := by
  refine ⟨by with_unfolding_all decide, by with_unfolding_all decide⟩

/-- C2 amended: a correction hit commits to variant selection only when the
mapped identifier is a non-empty catalog key; otherwise resolution skips
prefix-stripping and fuzzy scoring entirely and falls through directly to the
substring fallback. -/
theorem C2_amended (bot : BotState) (fn c : List Char) (hint : Option (List Char))
    (hfn : fn ≠ []) (hmiss : lookupA bot.code_blocks (lowerS fn) = none)
    (hcorr : lookupA bot.ocr_corrections (lowerS fn) = some c) :
    (∀ variants, c ≠ [] → lookupA bot.code_blocks c = some variants →
      get_code_from_database bot fn hint = (select_variant_fuzzy bot variants, bot)) ∧
    (lookupA bot.code_blocks c = none →
      get_code_from_database bot fn hint = substring_or_fail bot (lowerS fn)) := by
  have hfz : fuzzy_match_function_name bot fn = some c := by
    simp [fuzzy_match_function_name, if_neg hfn, hcorr]
  constructor
  · intro variants hc hcat
    simp only [get_code_from_database, if_neg hfn, hmiss, hfz]
    simp [hc, hcat]
  · intro hnone
    simp only [get_code_from_database, if_neg hfn, hmiss, hfz]
    by_cases hc : c = []
    · simp [hc]
    · simp [hc, hnone]

/-- C2 witness: the amended theorem's fall-through part applied to the
concrete session of the counterexample. -/
theorem C2_amended_witness :
    get_code_from_database c2_bot (String.toList "twsum") none =
      substring_or_fail c2_bot (lowerS (String.toList "twsum")) :=
  (C2_amended c2_bot (String.toList "twsum") (String.toList "nonexistent") none
      (by decide) (by decide) (by decide)).2 (by decide)

set_option maxRecDepth 100000 in
/-- C10 counterexample: the candidate "def" does not resolve to the first
catalog identifier: with catalog [twosum, def], the identifier "def" scores a
perfect 1 (above the boosted 0.85 of "twosum") and wins. -/
theorem C10_counterexample :
    fuzzy_match_function_name c10_bot (String.toList "def") =
      some (String.toList "def") ∧
    (c10_bot.code_blocks.map (fun kv => kv.1)).headD [] = String.toList "twosum" ∧
    String.toList "def" ≠ String.toList "twosum" := by
  refine ⟨by with_unfolding_all decide, by decide, by decide⟩

/-- C10 amended: when the lowercased candidate is exactly a prefix token (and
the correction table misses), the cleaned candidate is empty, the substring
boost lifts every identifier's score to at least 0.85, and fuzzy matching
returns some catalog identifier (never unresolved); it is the first identifier
in iteration order provided no identifier's raw similarity exceeds 0.85. -/
theorem C10_amended (bot : BotState) (cand : List Char)
    (hne : cand ≠ []) (htok : lowerS cand ∈ prefixTokens)
    (hcorr : lookupA bot.ocr_corrections (lowerS cand) = none)
    (hcat : bot.code_blocks ≠ [])
    (hids : ∀ kv ∈ bot.code_blocks, kv.1 ≠ []) :
    clean_ocr_fn prefixTokens (lowerS cand) = [] ∧
    (∀ kv ∈ bot.code_blocks, (85 : ℚ) / 100 ≤ fuzzy_score (lowerS cand) [] kv.1) ∧
    (∃ f, fuzzy_match_function_name bot cand = some f ∧
      f ∈ bot.code_blocks.map (fun kv => kv.1)) ∧
    ((∀ kv ∈ bot.code_blocks, calculate_similarity (lowerS cand) kv.1 ≤ 85 / 100) →
      fuzzy_match_function_name bot cand =
        some ((bot.code_blocks.map (fun kv => kv.1)).headD [])) := by
  have hclean := clean_ocr_fn_token _ htok
  have hunfold : fuzzy_match_function_name bot cand =
      match fuzzy_loop (lowerS cand) [] (bot.code_blocks.map (fun kv => kv.1)) none 0 with
      | some best => if best = [] then none else some best
      | none => none := by
    simp only [fuzzy_match_function_name, if_neg hne, hcorr, hclean]
  obtain ⟨f1, rest, hids_eq⟩ :
      ∃ f1 rest, bot.code_blocks.map (fun kv => kv.1) = f1 :: rest := by
    cases hcb : bot.code_blocks with
    | nil => exact absurd hcb hcat
    | cons kv tl => exact ⟨kv.1, tl.map (fun kv => kv.1), by simp⟩
  have hmem_ne : ∀ f, f ∈ bot.code_blocks.map (fun kv => kv.1) → f ≠ [] := by
    intro f hf
    obtain ⟨kv, hkv, hkv1⟩ := List.mem_map.mp hf
    exact hkv1 ▸ hids kv hkv
  have hcond : (0 : ℚ) < fuzzy_score (lowerS cand) [] f1 ∧
      (6 : ℚ) / 10 < fuzzy_score (lowerS cand) [] f1 := by
    have hb := fuzzy_score_boost (lowerS cand) f1
    constructor <;> linarith
  have hloop1 : fuzzy_loop (lowerS cand) [] (f1 :: rest) none 0 =
      fuzzy_loop (lowerS cand) [] rest (some f1) (fuzzy_score (lowerS cand) [] f1) := by
    simp only [fuzzy_loop]
    rw [if_pos hcond]
  refine ⟨hclean, fun kv _ => fuzzy_score_boost _ _, ?_, ?_⟩
  · have hsome : (fuzzy_loop (lowerS cand) [] rest (some f1)
        (fuzzy_score (lowerS cand) [] f1)).isSome :=
      fuzzy_loop_isSome _ _ rest (some f1) _ rfl
    obtain ⟨f, hf⟩ := Option.isSome_iff_exists.mp hsome
    have hmem : f ∈ f1 :: rest := by
      rcases fuzzy_loop_mem _ _ rest (some f1) _ f hf with h | h
      · exact (Option.some.inj h) ▸ List.mem_cons_self _ _
      · exact List.mem_cons_of_mem _ h
    have hmem' : f ∈ bot.code_blocks.map (fun kv => kv.1) := hids_eq ▸ hmem
    refine ⟨f, ?_, hmem'⟩
    rw [hunfold, hids_eq, hloop1, hf]
    simp [hmem_ne f hmem']
  · intro hbound
    have hboundm : ∀ fn, fn ∈ bot.code_blocks.map (fun kv => kv.1) →
        calculate_similarity (lowerS cand) fn ≤ 85 / 100 := by
      intro fn hfn
      obtain ⟨kv, hkv, hkv1⟩ := List.mem_map.mp hfn
      exact hkv1 ▸ hbound kv hkv
    have hs1eq : fuzzy_score (lowerS cand) [] f1 = 85 / 100 :=
      fuzzy_score_nil_clean _ _ (hboundm f1 (hids_eq ▸ List.mem_cons_self _ _))
    have hstay : fuzzy_loop (lowerS cand) [] rest (some f1)
        (fuzzy_score (lowerS cand) [] f1) = some f1 := by
      rw [hs1eq]
      apply fuzzy_loop_stay
      intro fn hfn
      rw [fuzzy_score_nil_clean _ _
        (hboundm fn (hids_eq ▸ List.mem_cons_of_mem _ hfn))]
    have hf1ne : f1 ≠ [] := hmem_ne f1 (hids_eq ▸ List.mem_cons_self _ _)
    rw [hunfold, hids_eq, hloop1, hstay]
    simp [hf1ne]

set_option maxRecDepth 100000 in
/-- C10 witness: the amended theorem applied to the one-identifier catalog
[twosum] and the candidate "def": fuzzy matching resolves to twosum, the first
identifier. -/
theorem C10_amended_witness :
    fuzzy_match_function_name c10w_bot (String.toList "def") =
      some ((c10w_bot.code_blocks.map (fun kv => kv.1)).headD []) :=
  (C10_amended c10w_bot (String.toList "def") (by decide) (by decide) (by decide)
      (by decide) (by decide)).2.2.2 (by with_unfolding_all decide)

set_option maxRecDepth 100000 in
/-- C7 counterexample: the candidate "qqqqqqqq" against the catalog [twosum]
is unresolved, yet the maintenance tool's suggestion list for it is empty —
the claimed non-empty top-five list does not exist. -/
theorem C7_counterexample :
    (get_code_from_database c7_bot (String.toList "qqqqqqqq") none).1 = none ∧
    suggestion_matches [String.toList "twosum"] (String.toList "qqqqqqqq") = [] := by
  refine ⟨by with_unfolding_all decide, by with_unfolding_all decide⟩

/-- C7 amended: when no stage accepts an identifier, resolution returns no
code and the unknown counter (the record's sequence number) grows by exactly
one; the offline tool's suggestion list is score-descending but may be empty
(and the session resolver itself carries no suggestions). -/
theorem C7_amended (bot : BotState) (fn : List Char) (hint : Option (List Char))
    (h1 : fn ≠ []) (h2 : lookupA bot.code_blocks (lowerS fn) = none)
    (h3 : ∀ c, fuzzy_match_function_name bot fn = some c →
      c = [] ∨ lookupA bot.code_blocks c = none)
    (h4 : bot.code_blocks.find?
        (fun kv => isSubstrOf (lowerS fn) kv.1 || isSubstrOf kv.1 (lowerS fn)) = none) :
    get_code_from_database bot fn hint =
      (none, { bot with unknown_count := bot.unknown_count + 1 }) ∧
    ∀ (available : List (List Char)) (ocr : List Char),
      List.Sorted (fun a b : List Char × ℚ => b.2 ≤ a.2)
        (suggestion_matches available ocr) := by
  have hsub : substring_or_fail bot (lowerS fn) =
      (none, { bot with unknown_count := bot.unknown_count + 1 }) := by
    simp [substring_or_fail, h4, save_unknown_function_screenshot]
  constructor
  · rcases hf : fuzzy_match_function_name bot fn with _ | c
    · simp only [get_code_from_database, if_neg h1, h2, hf]
      exact hsub
    · rcases h3 c hf with hc | hc
      · simp only [get_code_from_database, if_neg h1, h2, hf, hc]
        simpa using hsub
      · simp only [get_code_from_database, if_neg h1, h2, hf, hc]
        by_cases hce : c = []
        · simp only [hce, ne_eq, not_true_eq_false, if_false]
          exact hsub
        · simp only [ne_eq, hce, not_false_eq_true, if_true]
          exact hsub
  · intro available ocr
    unfold suggestion_matches
    have htrans : ∀ a b c : List Char × ℚ,
        (fun a b : List Char × ℚ => decide (b.2 ≤ a.2)) a b →
        (fun a b : List Char × ℚ => decide (b.2 ≤ a.2)) b c →
        (fun a b : List Char × ℚ => decide (b.2 ≤ a.2)) a c := by
      intro a b c hab hbc
      simp only [decide_eq_true_eq] at hab hbc ⊢
      exact le_trans hbc hab
    have htotal : ∀ a b : List Char × ℚ,
        ((fun a b : List Char × ℚ => decide (b.2 ≤ a.2)) a b ||
         (fun a b : List Char × ℚ => decide (b.2 ≤ a.2)) b a) = true := by
      intro a b
      simp only [Bool.or_eq_true, decide_eq_true_eq]
      exact le_total b.2 a.2
    have h := List.sorted_mergeSort htrans htotal
      (available.filterMap
        (fun g =>
          let s := rv_score ocr (clean_ocr_fn prefixTokens ocr) g
          if (1 : ℚ) / 2 < s then some (g, s) else none))
    exact h.imp (fun hab => of_decide_eq_true hab)

set_option maxRecDepth 100000 in
/-- C7 witness: the amended theorem applied to the concrete unresolved
candidate "qqqqqqqq" over the catalog [twosum]. -/
theorem C7_amended_witness :
    get_code_from_database c7_bot (String.toList "qqqqqqqq") none =
      (none, { c7_bot with unknown_count := c7_bot.unknown_count + 1 }) ∧
    List.Sorted (fun a b : List Char × ℚ => b.2 ≤ a.2)
      (suggestion_matches [String.toList "twosum"] (String.toList "qqqqqqqq")) := by
  have h := C7_amended c7_bot (String.toList "qqqqqqqq") none (by decide) (by decide)
    (fun c hc => by
      rw [show fuzzy_match_function_name c7_bot (String.toList "qqqqqqqq") = none from
        by with_unfolding_all decide] at hc
      cases hc)
    (by with_unfolding_all decide)
  exact ⟨h.1, h.2 [String.toList "twosum"] (String.toList "qqqqqqqq")⟩

end WpmBot
